import Mathlib

/-!
# decode-portspec

A shallow embedding of the `decode-portspec` debug sub-command of ws-manager
(`components/ws-manager/cmd/debug-decode-portspec.go`).

The handler is three calls in sequence: `api.ExposedPortsFromBase64`,
`protojson.MarshalOptions.Marshal` and `fmt.Fprint(os.Stdout, ...)`.  None of
the three callees lives in the command's file, so the handler is embedded over
an environment `Env` that supplies them, and every call it makes is recorded
in a trace.  What the command writes to standard output is read off the trace.
-/

namespace DecodePortspec

/-- An 8-bit value. -/
abbrev Byte := Fin 256

/-- The two fields of `protojson.MarshalOptions` that the command sets.  The
composite literal in the source leaves every other field at its zero value. -/
structure MarshalOptions where
  Indent : String
  UseEnumNumbers : Bool
deriving DecidableEq, Repr

/-- One call that leaves the command's own code. -/
inductive Event (Rec : Type) where
  /-- The call `api.ExposedPortsFromBase64(arg)`. -/
  | decode (arg : String)
  /-- The call `opts.Marshal(port)`. -/
  | marshal (opts : MarshalOptions) (port : Rec)
  /-- The call `fmt.Fprint(os.Stdout, text)`: `text` is handed to standard
  output as it is, `Fprint` adding nothing to a single string operand. -/
  | fprintStdout (text : List Byte)
deriving DecidableEq, Repr

/-- The callees of the handler.  `ε` is the type of Go `error` values, `Rec`
the type behind `*api.ExposedPorts`. -/
structure Env (ε Rec : Type) where
  /-- The function `api.ExposedPortsFromBase64`. -/
  ExposedPortsFromBase64 : String → Except ε Rec
  /-- The method `protojson.MarshalOptions.Marshal`. -/
  Marshal : MarshalOptions → Rec → Except ε (List Byte)
  /-- The error `fmt.Fprint(os.Stdout, text)` reports for `text`, if any. -/
  Fprint : List Byte → Option ε

/-- How a call of the handler ends. -/
inductive Outcome (ε : Type) where
  /-- The handler returned `err` (`none` is Go's `nil`). -/
  | returned (err : Option ε)
  /-- The handler panicked (index out of range). -/
  | panicked
deriving DecidableEq, Repr

/-- The `marshaler` value the handler builds (lines 26-29). -/
def marshaler : MarshalOptions :=
  { Indent := "  ", UseEnumNumbers := true }

/-- The `RunE` function of `debugPortSpec` (lines 21-38), threading the trace
of calls made so far. -/
def RunE {ε Rec : Type} (env : Env ε Rec) (args : List String)
    (trace : List (Event Rec)) : Outcome ε × List (Event Rec) :=
  match args with
  | [] => (.panicked, trace)
  | arg0 :: _ =>
    let trace := trace ++ [.decode arg0]
    match env.ExposedPortsFromBase64 arg0 with
    | .error err => (.returned (some err), trace)
    | .ok port =>
      let trace := trace ++ [.marshal marshaler port]
      match env.Marshal marshaler port with
      | .error err => (.returned (some err), trace)
      | .ok b =>
        let trace := trace ++ [.fprintStdout b]
        (.returned (env.Fprint b), trace)

/-- The texts handed to standard output in a trace, in order. -/
def stdoutWrites {Rec : Type} : List (Event Rec) → List (List Byte)
  | [] => []
  | .fprintStdout text :: rest => text :: stdoutWrites rest
  | _ :: rest => stdoutWrites rest

/-- The bytes on standard output after a trace. -/
def stdoutBytes {Rec : Type} (trace : List (Event Rec)) : List Byte :=
  (stdoutWrites trace).flatten

/-- The marshal calls of a trace, in order. -/
def marshalCalls {Rec : Type} : List (Event Rec) → List (MarshalOptions × Rec)
  | [] => []
  | .marshal opts port :: rest => (opts, port) :: marshalCalls rest
  | _ :: rest => marshalCalls rest

/-- Modelled from the spec: the error of cobra's argument validator; cobra (the
command-line argument-parsing framework) is not under src/.  The error records
how many positional arguments the command accepts and how many it received. -/
structure ArgsError where
  accepts : Nat
  received : Nat
deriving DecidableEq, Repr

/-- Modelled from the spec: `cobra.ExactArgs(n)`, which is not under src/: the
command takes exactly `n` positional arguments, any other number is an
error. -/
def ExactArgs (n : Nat) (args : List String) : Option ArgsError :=
  if args.length ≠ n then some { accepts := n, received := args.length } else none

/-- The fields of `cobra.Command` that `debugPortSpec` sets (lines 17-39). -/
structure Command (ε Rec : Type) where
  Use : String
  Short : String
  Args : List String → Option ArgsError
  RunE : List String → List (Event Rec) → Outcome ε × List (Event Rec)

/-- The command value `debugPortSpec` (lines 17-39). -/
def debugPortSpec {ε Rec : Type} (env : Env ε Rec) : Command ε Rec :=
  { Use := "decode-portspec <str>"
    Short := "Decodes and marshals an port spec to JSON from a base64-encoded protobuf string"
    Args := ExactArgs 1
    RunE := RunE env }

/-- Modelled from the spec: how running a command on an argument list ends;
cobra is not under src/. -/
inductive ExecResult (ε : Type) where
  /-- The validator in `Args` rejected the list; `RunE` was not called. -/
  | invalidArgs (err : ArgsError)
  /-- The validator accepted the list and `RunE` was called on it. -/
  | ran (outcome : Outcome ε)
deriving DecidableEq, Repr

/-- Modelled from the spec: cobra's dispatch of a leaf command, which is not
under src/: the positional arguments are validated by `Args` first, and the
handler `RunE` is called on them only when the validator returns no error. -/
def Command.execute {ε Rec : Type} (c : Command ε Rec) (args : List String)
    (trace : List (Event Rec)) : ExecResult ε × List (Event Rec) :=
  match c.Args args with
  | some err => (.invalidArgs err, trace)
  | none =>
    let r := c.RunE args trace
    (.ran r.1, r.2)

/-! ## The decode stage, from the specification

`api.ExposedPortsFromBase64` belongs to the repository but not to the
command's file.  The specification describes it as two stages, a text decoder
(base64, standard alphabet, padding required) followed by a schema-driven
record decoder supplied by a serialization library.
-/

/-- Modelled from the spec: the standard base64 alphabet (§4.1). -/
def stdAlphabet : List Char :=
  "ABCDEFGHIJKLMNOPQRSTUVWXYZabcdefghijklmnopqrstuvwxyz0123456789+/".toList

/-- Modelled from the spec: the alphabet character of a 6-bit value. -/
def sextetChar (n : Nat) : Char := stdAlphabet.getD n 'A'

/-- Modelled from the spec: the 6-bit value of an alphabet character, `none`
for any other character (the padding character included). -/
def sextetOf (c : Char) : Option Nat :=
  if stdAlphabet.indexOf c < 64 then some (stdAlphabet.indexOf c) else none

/-- The low eight bits of a number, as a byte. -/
def toByte (n : Nat) : Byte := ⟨n % 256, Nat.mod_lt n (by decide)⟩

/-- Modelled from the spec: the base64 encoder of the round-trip law (§8.1),
standard alphabet with padding; the encoder is not under src/.  Three bytes
become four characters; a last group of one or two bytes is padded with `=`. -/
def encodeGroups : List Byte → List Char
  | [] => []
  | [a] => [sextetChar (a.val / 4), sextetChar (a.val % 4 * 16), '=', '=']
  | [a, b] =>
    [sextetChar (a.val / 4), sextetChar (a.val % 4 * 16 + b.val / 16),
      sextetChar (b.val % 16 * 4), '=']
  | a :: b :: c :: rest =>
    sextetChar (a.val / 4) :: sextetChar (a.val % 4 * 16 + b.val / 16)
      :: sextetChar (b.val % 16 * 4 + c.val / 64) :: sextetChar (c.val % 64)
      :: encodeGroups rest

/-- Modelled from the spec: base64-encoding a byte sequence as a string
(§8.1); the encoder is not under src/. -/
def base64Encode (bytes : List Byte) : String := String.mk (encodeGroups bytes)

/-- Modelled from the spec: the group-by-group decoding of the text decoder
(§4.1), which is not under src/: standard alphabet, padding required.  A
character outside the alphabet, padding anywhere but the end of the last
group, and a group of fewer than four characters all give `none`. -/
def decodeGroups : List Char → Option (List Byte)
  | [] => some []
  | c0 :: c1 :: c2 :: c3 :: rest =>
    match sextetOf c0, sextetOf c1 with
    | some x, some y =>
      if rest = [] ∧ c3 = '=' then
        if c2 = '=' then some [toByte (x * 4 + y / 16)]
        else
          match sextetOf c2 with
          | some z => some [toByte (x * 4 + y / 16), toByte (y % 16 * 16 + z / 4)]
          | none => none
      else
        match sextetOf c2, sextetOf c3, decodeGroups rest with
        | some z, some t, some tail =>
          some (toByte (x * 4 + y / 16) :: toByte (y % 16 * 16 + z / 4)
            :: toByte (z % 4 * 64 + t) :: tail)
        | _, _, _ => none
    | _, _ => none
  | _ => none

/-- Modelled from the spec: the errors of the pipeline's stages (§7), with the
error of the final write, which the handler returns as well. -/
inductive PipelineError where
  /-- Stage 1: the text is not base64; carries the input length and the
  decoder's diagnostic. -/
  | MalformedText (inputLength : Nat) (diagnostic : String)
  /-- Stage 2: the bytes are not a message of the schema. -/
  | MalformedRecord (description : String)
  /-- Stage 3: the record holds a value JSON cannot represent. -/
  | UnsupportedValue (description : String)
  /-- The write to standard output failed. -/
  | WriteFailed (description : String)
deriving DecidableEq, Repr

/-- Modelled from the spec: `TextDecoder.decode` (§4.1), which is not under
src/: the complete byte sequence, or `MalformedText` with the length of the
input. -/
def TextDecoder.decode (input : String) : Except PipelineError (List Byte) :=
  match decodeGroups input.toList with
  | some bytes => .ok bytes
  | none => .error (.MalformedText input.length "illegal base64 data")

/-- Modelled from the spec: the external collaborators (§6, §9), which are
not under src/: the schema's encoder, its binary decode function
`bytesToRecord`, the zero-valued record and the structured-to-JSON marshaling
function. -/
structure SchemaLib (Rec : Type) where
  zero : Rec
  recordToBytes : Rec → List Byte
  bytesToRecord : List Byte → Except String Rec
  render : MarshalOptions → Rec → Except String (List Byte)

/-- Modelled from the spec: `RecordDecoder.decode` (§4.2), which is not under
src/: empty input is the zero-valued record, not an error; any other input is
decoded by the schema library, a failure of which is `MalformedRecord`. -/
def RecordDecoder.decode {Rec : Type} (lib : SchemaLib Rec) (bytes : List Byte) :
    Except PipelineError Rec :=
  if bytes = [] then .ok lib.zero
  else
    match lib.bytesToRecord bytes with
    | .ok r => .ok r
    | .error d => .error (.MalformedRecord d)

/-- Modelled from the spec: `StructuredRenderer.render` (§4.3), which is not
under src/: the library's rendering, a failure of which is
`UnsupportedValue`. -/
def StructuredRenderer.render {Rec : Type} (lib : SchemaLib Rec)
    (options : MarshalOptions) (record : Rec) : Except PipelineError (List Byte) :=
  match lib.render options record with
  | .ok text => .ok text
  | .error d => .error (.UnsupportedValue d)

/-- Modelled from the spec: `api.ExposedPortsFromBase64`, which is not under
src/: the text decoder followed by the record decoder (§2), the first
failure ending the decode. -/
def ExposedPortsFromBase64 {Rec : Type} (lib : SchemaLib Rec) (s : String) :
    Except PipelineError Rec :=
  match TextDecoder.decode s with
  | .error e => .error e
  | .ok bytes => RecordDecoder.decode lib bytes

/-- Modelled from the spec: the environment of the handler with the pipeline
stages of §4 for its callees; the callees are not under src/.  `write` is the
error standard output reports for a text, if any. -/
def specEnv {Rec : Type} (lib : SchemaLib Rec)
    (write : List Byte → Option PipelineError) : Env PipelineError Rec :=
  { ExposedPortsFromBase64 := ExposedPortsFromBase64 lib
    Marshal := StructuredRenderer.render lib
    Fprint := write }

/-- Modelled from the spec: a standard-alphabet, padded base64 text (§4.1):
whole groups of four characters, all from the alphabet but for one or two
padding characters at the very end. -/
def IsStdBase64 (s : String) : Prop :=
  s.length % 4 = 0 ∧
    ∃ body pad : List Char, s.toList = body ++ pad ∧ (∀ c ∈ body, c ∈ stdAlphabet) ∧
      (pad = [] ∨ pad = ['='] ∨ pad = ['=', '='])

/-! ## A stand-in schema

The specification (§9) asks that the pipeline be testable with records that
need no schema compiler.  The schema below has a single enumeration-typed
field; it serves the concrete instances of the theorems.
-/

/-- The enumeration of the stand-in schema. -/
inductive PortVisibility where
  | PRIVATE
  | PUBLIC
deriving DecidableEq, Repr

/-- The integer code of an enumeration value. -/
def PortVisibility.code : PortVisibility → String
  | .PRIVATE => "0"
  | .PUBLIC => "1"

/-- The symbolic name of an enumeration value, as JSON text. -/
def PortVisibility.symbol : PortVisibility → String
  | .PRIVATE => "\"PRIVATE\""
  | .PUBLIC => "\"PUBLIC\""

/-- The record of the stand-in schema. -/
structure FakePortSpec where
  visibility : PortVisibility
deriving DecidableEq, Repr

/-- The bytes of an ASCII text. -/
def asciiBytes (s : String) : List Byte := s.toList.map (fun c => toByte c.toNat)

/-- The wire bytes of a stand-in record: nothing for the zero value, else the
field's tag and its code. -/
def fakeRecordToBytes (r : FakePortSpec) : List Byte :=
  match r.visibility with
  | .PRIVATE => []
  | .PUBLIC => [toByte 8, toByte 1]

/-- The wire decoder of the stand-in schema. -/
def fakeBytesToRecord (bytes : List Byte) : Except String FakePortSpec :=
  if bytes = [] ∨ bytes = [toByte 8, toByte 0] then .ok { visibility := .PRIVATE }
  else if bytes = [toByte 8, toByte 1] then .ok { visibility := .PUBLIC }
  else .error "cannot parse invalid wire-format data"

/-- The JSON text of a stand-in record; the zero-valued field is omitted. -/
def fakeRender (options : MarshalOptions) (r : FakePortSpec) : Except String (List Byte) :=
  match r.visibility with
  | .PRIVATE => .ok (asciiBytes "\x7b\x7d")
  | v =>
    .ok (asciiBytes ("\x7b\n" ++ options.Indent ++ "\"visibility\": "
      ++ (if options.UseEnumNumbers then v.code else v.symbol) ++ "\n\x7d"))

/-- The stand-in schema library. -/
def fakeLib : SchemaLib FakePortSpec :=
  { zero := { visibility := .PRIVATE }
    recordToBytes := fakeRecordToBytes
    bytesToRecord := fakeBytesToRecord
    render := fakeRender }

/-- The handler's environment over the stand-in schema, with a standard output
that accepts every write. -/
def fakeEnv : Env PipelineError FakePortSpec := specEnv fakeLib (fun _ => none)

/-- An environment whose decode stage fails on `"bad"` with the same error
value with which its marshal stage fails on every record. -/
def sameErrorEnv : Env String Unit :=
  { ExposedPortsFromBase64 := fun s => if s = "bad" then .error "proto: syntax error" else .ok ()
    Marshal := fun _ _ => .error "proto: syntax error"
    Fprint := fun _ => none }

/-- The JSON text of the stand-in record with a public port, enumerations as
numbers, two-space indent. -/
def publicJson : List Byte := asciiBytes "\x7b\n  \"visibility\": 1\n\x7d"

/-- The JSON text of the stand-in record with a public port, enumerations as
names, two-space indent. -/
def publicJsonSymbolic : List Byte := asciiBytes "\x7b\n  \"visibility\": \"PUBLIC\"\n\x7d"

/-- The JSON text of the zero-valued stand-in record. -/
def emptyJson : List Byte := asciiBytes "\x7b\x7d"

/-- The empty trace over the stand-in schema. -/
def noCalls : List (Event FakePortSpec) := []

/-! ## Reading a trace -/

theorem stdoutWrites_append {Rec : Type} (t u : List (Event Rec)) :
    stdoutWrites (t ++ u) = stdoutWrites t ++ stdoutWrites u := by
  induction t with
  | nil => rfl
  | cons ev rest ih => cases ev <;> simp [stdoutWrites, ih]

theorem marshalCalls_append {Rec : Type} (t u : List (Event Rec)) :
    marshalCalls (t ++ u) = marshalCalls t ++ marshalCalls u := by
  induction t with
  | nil => rfl
  | cons ev rest ih => cases ev <;> simp [marshalCalls, ih]

theorem stdoutBytes_append {Rec : Type} (t u : List (Event Rec)) :
    stdoutBytes (t ++ u) = stdoutBytes t ++ stdoutBytes u := by
  simp [stdoutBytes, stdoutWrites_append]

/-! ## The three ways through the handler -/

theorem RunE_decode_error {ε Rec : Type} (env : Env ε Rec) (s : String)
    (rest : List String) (trace : List (Event Rec)) (e : ε)
    (hd : env.ExposedPortsFromBase64 s = .error e) :
    RunE env (s :: rest) trace = (.returned (some e), trace ++ [.decode s]) := by
  simp [RunE, hd]

theorem RunE_marshal_error {ε Rec : Type} (env : Env ε Rec) (s : String)
    (rest : List String) (trace : List (Event Rec)) (p : Rec) (e : ε)
    (hd : env.ExposedPortsFromBase64 s = .ok p)
    (hm : env.Marshal marshaler p = .error e) :
    RunE env (s :: rest) trace
      = (.returned (some e), trace ++ [.decode s, .marshal marshaler p]) := by
  simp [RunE, hd, hm]

theorem RunE_ok {ε Rec : Type} (env : Env ε Rec) (s : String)
    (rest : List String) (trace : List (Event Rec)) (p : Rec) (b : List Byte)
    (hd : env.ExposedPortsFromBase64 s = .ok p)
    (hm : env.Marshal marshaler p = .ok b) :
    RunE env (s :: rest) trace
      = (.returned (env.Fprint b),
          trace ++ [.decode s, .marshal marshaler p, .fprintStdout b]) := by
  simp [RunE, hd, hm]

/-! ## The text decoder -/

theorem sextetOf_sextetChar (n : Nat) (h : n < 64) : sextetOf (sextetChar n) = some n := by
  interval_cases n <;> decide

theorem sextetChar_ne_pad (n : Nat) (h : n < 64) : sextetChar n ≠ '=' := by
  interval_cases n <;> decide

theorem sextetOf_some {c : Char} {n : Nat} (h : sextetOf c = some n) :
    n < 64 ∧ c ∈ stdAlphabet ∧ c ≠ '=' := by
  unfold sextetOf at h
  split at h
  · rename_i hlt
    injection h with h
    subst h
    refine ⟨hlt, ?_, ?_⟩
    · apply List.indexOf_lt_length.mp
      have : stdAlphabet.length = 64 := by decide
      omega
    · rintro rfl
      revert hlt
      decide
  · cases h

theorem decodeGroups_encodeGroups (bytes : List Byte) :
    decodeGroups (encodeGroups bytes) = some bytes := by
  induction bytes using encodeGroups.induct with
  | case1 => rfl
  | case2 a =>
    have ha := a.isLt
    simp only [encodeGroups, decodeGroups]
    rw [sextetOf_sextetChar _ (by omega), sextetOf_sextetChar _ (by omega)]
    simp
    apply Fin.ext
    simp [toByte]
    omega
  | case3 a b =>
    have ha := a.isLt
    have hb := b.isLt
    simp only [encodeGroups, decodeGroups]
    rw [sextetOf_sextetChar _ (by omega), sextetOf_sextetChar _ (by omega)]
    simp [sextetChar_ne_pad _ (show b.val % 16 * 4 < 64 by omega),
      sextetOf_sextetChar _ (show b.val % 16 * 4 < 64 by omega)]
    constructor <;> (apply Fin.ext; simp [toByte]; omega)
  | case4 a b c rest ih =>
    have ha := a.isLt
    have hb := b.isLt
    have hc := c.isLt
    simp only [encodeGroups, decodeGroups]
    rw [sextetOf_sextetChar _ (by omega), sextetOf_sextetChar _ (by omega)]
    simp [sextetChar_ne_pad _ (show c.val % 64 < 64 by omega),
      sextetOf_sextetChar _ (show c.val % 64 < 64 by omega),
      sextetOf_sextetChar _ (show b.val % 16 * 4 + c.val / 64 < 64 by omega), ih]
    refine ⟨?_, ?_, ?_⟩ <;> (apply Fin.ext; simp [toByte]; omega)


theorem decodeGroups_wellFormed : ∀ (cs : List Char) (bytes : List Byte),
    decodeGroups cs = some bytes →
      cs.length % 4 = 0 ∧
        ∃ body pad : List Char, cs = body ++ pad ∧ (∀ c ∈ body, c ∈ stdAlphabet) ∧
          (pad = [] ∨ pad = ['='] ∨ pad = ['=', '='])
  | [], _, _ => ⟨rfl, [], [], rfl, by simp, Or.inl rfl⟩
  | [_], _, h => by simp [decodeGroups] at h
  | [_, _], _, h => by simp [decodeGroups] at h
  | [_, _, _], _, h => by simp [decodeGroups] at h
  | c0 :: c1 :: c2 :: c3 :: rest, bytes, h => by
    unfold decodeGroups at h
    split at h
    · rename_i x y hx hy
      have hc0 := (sextetOf_some hx).2.1
      have hc1 := (sextetOf_some hy).2.1
      split at h
      · rename_i hlast
        obtain ⟨hrest, hc3⟩ := hlast
        subst hrest hc3
        split at h
        · rename_i hc2
          subst hc2
          exact ⟨by simp, [c0, c1], ['=', '='], rfl, by simp [hc0, hc1], Or.inr (Or.inr rfl)⟩
        · split at h
          · rename_i z hz
            have hc2 := (sextetOf_some hz).2.1
            exact ⟨by simp, [c0, c1, c2], ['='], rfl, by simp [hc0, hc1, hc2], Or.inr (Or.inl rfl)⟩
          · cases h
      · split at h
        · rename_i z t tail hz ht htail
          have hc2 := (sextetOf_some hz).2.1
          have hc3 := (sextetOf_some ht).2.1
          obtain ⟨hlen, body, pad, hsplit, hbody, hpad⟩ := decodeGroups_wellFormed rest tail htail
          refine ⟨?_, c0 :: c1 :: c2 :: c3 :: body, pad, ?_, ?_, hpad⟩
          · simp only [List.length_cons]; omega
          · simp [hsplit]
          · intro c hc
            simp only [List.mem_cons] at hc
            rcases hc with rfl | rfl | rfl | rfl | hc
            · exact hc0
            · exact hc1
            · exact hc2
            · exact hc3
            · exact hbody c hc
        · cases h
    · cases h


theorem sextetOf_of_mem {c : Char} (h : c ∈ stdAlphabet) :
    (∃ n, sextetOf c = some n) ∧ c ≠ '=' := by
  have hlt : stdAlphabet.indexOf c < 64 := by
    have := List.indexOf_lt_length.mpr h
    have hl : stdAlphabet.length = 64 := by decide
    omega
  refine ⟨⟨stdAlphabet.indexOf c, by simp [sextetOf, hlt]⟩, ?_⟩
  rintro rfl
  revert hlt
  decide

theorem decodeGroups_complete : ∀ (body pad : List Char),
    (∀ c ∈ body, c ∈ stdAlphabet) → (pad = [] ∨ pad = ['='] ∨ pad = ['=', '=']) →
      (body ++ pad).length % 4 = 0 → ∃ bytes, decodeGroups (body ++ pad) = some bytes
  | [], pad, _, hpad, hlen => by
    rcases hpad with rfl | rfl | rfl
    · exact ⟨[], rfl⟩
    · exact absurd hlen (by simp)
    · exact absurd hlen (by simp)
  | [_], pad, _, hpad, hlen => by
    rcases hpad with rfl | rfl | rfl <;> exact absurd hlen (by simp)
  | [a, b], pad, hbody, hpad, hlen => by
    obtain ⟨⟨x, hx⟩, _⟩ := sextetOf_of_mem (hbody a (by simp))
    obtain ⟨⟨y, hy⟩, _⟩ := sextetOf_of_mem (hbody b (by simp))
    rcases hpad with rfl | rfl | rfl
    · exact absurd hlen (by simp)
    · exact absurd hlen (by simp)
    · exact ⟨[toByte (x * 4 + y / 16)], by simp [decodeGroups, hx, hy]⟩
  | [a, b, c], pad, hbody, hpad, hlen => by
    obtain ⟨⟨x, hx⟩, _⟩ := sextetOf_of_mem (hbody a (by simp))
    obtain ⟨⟨y, hy⟩, _⟩ := sextetOf_of_mem (hbody b (by simp))
    obtain ⟨⟨z, hz⟩, hc⟩ := sextetOf_of_mem (hbody c (by simp))
    rcases hpad with rfl | rfl | rfl
    · exact absurd hlen (by simp)
    · exact ⟨[toByte (x * 4 + y / 16), toByte (y % 16 * 16 + z / 4)], by
        simp [decodeGroups, hx, hy, hz, hc]⟩
    · exact absurd hlen (by simp)
  | a :: b :: c :: d :: body, pad, hbody, hpad, hlen => by
    obtain ⟨⟨x, hx⟩, _⟩ := sextetOf_of_mem (hbody a (by simp))
    obtain ⟨⟨y, hy⟩, _⟩ := sextetOf_of_mem (hbody b (by simp))
    obtain ⟨⟨z, hz⟩, _⟩ := sextetOf_of_mem (hbody c (by simp))
    obtain ⟨⟨t, ht⟩, hd⟩ := sextetOf_of_mem (hbody d (by simp))
    have hlen2 : (body ++ pad).length % 4 = 0 := by
      simp only [List.cons_append, List.length_cons] at hlen
      omega
    obtain ⟨tail, htail⟩ := decodeGroups_complete body pad
      (fun c hc => hbody c (by simp [hc])) hpad hlen2
    exact ⟨toByte (x * 4 + y / 16) :: toByte (y % 16 * 16 + z / 4)
      :: toByte (z % 4 * 64 + t) :: tail, by
        simp [decodeGroups, hx, hy, hz, ht, hd, htail]⟩

/-- The text decoder inverts the base64 encoder. -/
theorem TextDecoder_decode_encode (bytes : List Byte) :
    TextDecoder.decode (base64Encode bytes) = .ok bytes := by
  simp [TextDecoder.decode, base64Encode, decodeGroups_encodeGroups]

/-- The text decoder succeeds on exactly the standard-alphabet, padded base64
texts. -/
theorem TextDecoder_decode_ok_iff (s : String) :
    (∃ bytes, TextDecoder.decode s = .ok bytes) ↔ IsStdBase64 s := by
  constructor
  · rintro ⟨bytes, h⟩
    unfold TextDecoder.decode at h
    split at h
    · rename_i bs hbs
      exact decodeGroups_wellFormed s.toList bs hbs
    · cases h
  · rintro ⟨hlen, body, pad, hsplit, hbody, hpad⟩
    have hlen2 : (body ++ pad).length % 4 = 0 := by
      rw [← hsplit]
      exact hlen
    obtain ⟨bytes, hb⟩ := decodeGroups_complete body pad hbody hpad hlen2
    refine ⟨bytes, ?_⟩
    unfold TextDecoder.decode
    rw [hsplit, hb]

/-- Any other text is `MalformedText`, with the length of the input. -/
theorem TextDecoder_decode_malformed (s : String) (h : ¬ IsStdBase64 s) :
    TextDecoder.decode s = .error (.MalformedText s.length "illegal base64 data") := by
  unfold TextDecoder.decode
  split
  · rename_i bs hbs
    exact absurd (decodeGroups_wellFormed s.toList bs hbs) h
  · rfl

/-! ## The handler -/

/-- C1: when the decode step returns a record `p` for the argument `s` and the
marshal step returns the bytes `b` for `p`, the handler makes one write to
standard output, of exactly `b`: the trace grows by the decode call, the
marshal call and that one write, and standard output grows by `b`, with
nothing before or after it. -/
theorem RunE_writes_marshalled_bytes {ε Rec : Type} (env : Env ε Rec) (s : String)
    (rest : List String) (trace : List (Event Rec)) (p : Rec) (b : List Byte)
    (hd : env.ExposedPortsFromBase64 s = .ok p)
    (hm : env.Marshal marshaler p = .ok b) :
    (RunE env (s :: rest) trace).2
        = trace ++ [.decode s, .marshal marshaler p, .fprintStdout b] ∧
      stdoutWrites (RunE env (s :: rest) trace).2 = stdoutWrites trace ++ [b] ∧
      stdoutBytes (RunE env (s :: rest) trace).2 = stdoutBytes trace ++ b ∧
      (RunE env (s :: rest) trace).1 = .returned (env.Fprint b) := by
  rw [RunE_ok env s rest trace p b hd hm]
  refine ⟨rfl, ?_, ?_, rfl⟩
  · simp [stdoutWrites_append, stdoutWrites]
  · rw [stdoutBytes_append]
    simp [stdoutBytes, stdoutWrites]

/-- C1, at a concrete input: on `"CAE="` the stand-in record with a public
port is written, as 21 bytes of JSON and no newline after the closing brace. -/
theorem RunE_writes_marshalled_bytes_witness :
    fakeEnv.ExposedPortsFromBase64 "CAE=" = .ok { visibility := .PUBLIC } ∧
      fakeEnv.Marshal marshaler { visibility := .PUBLIC } = .ok publicJson ∧
      (RunE fakeEnv ["CAE="] noCalls).2
        = noCalls ++ [.decode "CAE=", .marshal marshaler { visibility := .PUBLIC },
            .fprintStdout publicJson] ∧
      stdoutWrites (RunE fakeEnv ["CAE="] noCalls).2 = stdoutWrites noCalls ++ [publicJson] ∧
      stdoutBytes (RunE fakeEnv ["CAE="] noCalls).2 = stdoutBytes noCalls ++ publicJson ∧
      (RunE fakeEnv ["CAE="] noCalls).1 = .returned (fakeEnv.Fprint publicJson) :=
  ⟨rfl, rfl, RunE_writes_marshalled_bytes fakeEnv "CAE=" [] noCalls { visibility := .PUBLIC }
    publicJson rfl rfl⟩

/-- C2: when the decode step fails, or the marshal step fails on the decoded
record, the handler returns a non-nil error and makes no write to standard
output; and when the decode step failed the marshal step is not called. -/
theorem RunE_failure_writes_nothing {ε Rec : Type} (env : Env ε Rec) (s : String)
    (rest : List String) (trace : List (Event Rec))
    (h : (∃ e, env.ExposedPortsFromBase64 s = .error e) ∨
      (∃ p e, env.ExposedPortsFromBase64 s = .ok p ∧ env.Marshal marshaler p = .error e)) :
    (∃ e, (RunE env (s :: rest) trace).1 = .returned (some e)) ∧
      stdoutWrites (RunE env (s :: rest) trace).2 = stdoutWrites trace ∧
      stdoutBytes (RunE env (s :: rest) trace).2 = stdoutBytes trace ∧
      ((∃ e, env.ExposedPortsFromBase64 s = .error e) →
        marshalCalls (RunE env (s :: rest) trace).2 = marshalCalls trace) := by
  rcases h with ⟨e, hd⟩ | ⟨p, e, hd, hm⟩
  · rw [RunE_decode_error env s rest trace e hd]
    refine ⟨⟨e, rfl⟩, ?_, ?_, fun _ => ?_⟩
    · simp [stdoutWrites_append, stdoutWrites]
    · rw [stdoutBytes_append]
      simp [stdoutBytes, stdoutWrites]
    · simp [marshalCalls_append, marshalCalls]
  · rw [RunE_marshal_error env s rest trace p e hd hm]
    refine ⟨⟨e, rfl⟩, ?_, ?_, ?_⟩
    · simp [stdoutWrites_append, stdoutWrites]
    · rw [stdoutBytes_append]
      simp [stdoutBytes, stdoutWrites]
    · rintro ⟨e2, hd2⟩
      rw [hd] at hd2
      cases hd2

/-- C2, at concrete inputs: the decode step fails on `"CAI="`, whose bytes
are no message of the stand-in schema, and nothing is written. -/
theorem RunE_failure_writes_nothing_witness :
    fakeEnv.ExposedPortsFromBase64 "CAI="
        = .error (.MalformedRecord "cannot parse invalid wire-format data") ∧
      (∃ e, (RunE fakeEnv ["CAI="] noCalls).1 = .returned (some e)) ∧
      stdoutWrites (RunE fakeEnv ["CAI="] noCalls).2 = stdoutWrites noCalls ∧
      stdoutBytes (RunE fakeEnv ["CAI="] noCalls).2 = stdoutBytes noCalls ∧
      ((∃ e, fakeEnv.ExposedPortsFromBase64 "CAI=" = .error e) →
        marshalCalls (RunE fakeEnv ["CAI="] noCalls).2 = marshalCalls noCalls) :=
  ⟨rfl, RunE_failure_writes_nothing fakeEnv "CAI=" [] noCalls (Or.inl ⟨_, rfl⟩)⟩

/-- C3, refuted: in an environment where the decode stage fails on `"bad"`
with the same error value with which the marshal stage fails on the record
decoded from `"good"`, the handler returns the same error for both arguments:
nothing in what it returns tells the failing stage. -/
theorem RunE_stage_errors_indistinguishable :
    sameErrorEnv.ExposedPortsFromBase64 "bad" = .error "proto: syntax error" ∧
      sameErrorEnv.ExposedPortsFromBase64 "good" = .ok () ∧
      sameErrorEnv.Marshal marshaler () = .error "proto: syntax error" ∧
      (RunE sameErrorEnv ["bad"] []).1 = .returned (some "proto: syntax error") ∧
      (RunE sameErrorEnv ["good"] []).1 = .returned (some "proto: syntax error") ∧
      (RunE sameErrorEnv ["bad"] []).1 = (RunE sameErrorEnv ["good"] []).1 :=
  ⟨rfl, rfl, rfl, rfl, rfl, rfl⟩

/-- C3, amended: the error the handler returns on a stage failure is the
error value of the stage that failed, unchanged: the handler adds no label of
its own, be it the decode stage or the marshal stage that failed. -/
theorem RunE_returns_stage_error_unchanged {ε Rec : Type} (env : Env ε Rec) (s : String)
    (rest : List String) (trace : List (Event Rec)) (e : ε)
    (h : env.ExposedPortsFromBase64 s = .error e ∨
      (∃ p, env.ExposedPortsFromBase64 s = .ok p ∧ env.Marshal marshaler p = .error e)) :
    (RunE env (s :: rest) trace).1 = .returned (some e) := by
  rcases h with hd | ⟨p, hd, hm⟩
  · rw [RunE_decode_error env s rest trace e hd]
  · rw [RunE_marshal_error env s rest trace p e hd hm]

/-- C3, amended, at concrete inputs: a failure of the marshal stage and a
failure of the decode stage, each returned as it is. -/
theorem RunE_returns_stage_error_unchanged_witness :
    (sameErrorEnv.ExposedPortsFromBase64 "good" = .ok () ∧
        sameErrorEnv.Marshal marshaler () = .error "proto: syntax error") ∧
      (RunE sameErrorEnv ["good"] []).1 = .returned (some "proto: syntax error") ∧
      fakeEnv.ExposedPortsFromBase64 "CAI="
        = .error (.MalformedRecord "cannot parse invalid wire-format data") ∧
      (RunE fakeEnv ["CAI="] noCalls).1
        = .returned (some (.MalformedRecord "cannot parse invalid wire-format data")) :=
  ⟨⟨rfl, rfl⟩,
    RunE_returns_stage_error_unchanged sameErrorEnv "good" [] [] "proto: syntax error"
      (Or.inr ⟨(), rfl, rfl⟩),
    rfl,
    RunE_returns_stage_error_unchanged fakeEnv "CAI=" [] noCalls
      (.MalformedRecord "cannot parse invalid wire-format data") (Or.inl rfl)⟩

/-- C4: the command accepts an argument list exactly when it has one element.
On any other list the validator returns an error, the handler is not run and
no call is made; on a list of one element the validator returns no error and
the handler is run on it, its first call being the decode of that element. -/
theorem debugPortSpec_accepts_exactly_one_argument {ε Rec : Type} (env : Env ε Rec)
    (args : List String) (trace : List (Event Rec)) :
    ((debugPortSpec env).Args args = none ↔ args.length = 1) ∧
      (args.length ≠ 1 →
        (debugPortSpec env).execute args trace
          = (.invalidArgs { accepts := 1, received := args.length }, trace)) ∧
      (∀ s, args = [s] →
        (debugPortSpec env).execute args trace
            = (.ran (RunE env [s] trace).1, (RunE env [s] trace).2) ∧
          (RunE env [s] trace).1 ≠ .panicked ∧
          ∃ later, (RunE env [s] trace).2 = trace ++ .decode s :: later) := by
  refine ⟨?_, ?_, ?_⟩
  · simp [debugPortSpec, ExactArgs]
  · intro h
    simp [Command.execute, debugPortSpec, ExactArgs, h]
  · rintro s rfl
    refine ⟨by simp [Command.execute, debugPortSpec, ExactArgs], ?_⟩
    cases hd : env.ExposedPortsFromBase64 s with
    | error e =>
      rw [RunE_decode_error env s [] trace e hd]
      exact ⟨by simp, [], rfl⟩
    | ok p =>
      cases hm : env.Marshal marshaler p with
      | error e =>
        rw [RunE_marshal_error env s [] trace p e hd hm]
        exact ⟨by simp, [.marshal marshaler p], by simp⟩
      | ok b =>
        rw [RunE_ok env s [] trace p b hd hm]
        exact ⟨by simp, [.marshal marshaler p, .fprintStdout b], by simp⟩

/-- C5: whatever the arguments, every marshal call of the handler carries an
indent of exactly two space characters and asks for enumerations as numbers;
there is one such call when the decode step succeeds and none otherwise. -/
theorem RunE_marshals_with_fixed_options {ε Rec : Type} (env : Env ε Rec)
    (args : List String) (trace : List (Event Rec)) :
    marshalCalls (RunE env args trace).2
        = marshalCalls trace ++
          (match args with
            | [] => []
            | s :: _ =>
              match env.ExposedPortsFromBase64 s with
              | .ok p => [({ Indent := "  ", UseEnumNumbers := true }, p)]
              | .error _ => []) ∧
      ∀ call ∈ marshalCalls (RunE env args []).2,
        call.1.Indent = "  " ∧ call.1.Indent.toList = [' ', ' '] ∧
          call.1.UseEnumNumbers = true := by
  cases args with
  | nil => simp [RunE, marshalCalls]
  | cons s rest =>
    cases hd : env.ExposedPortsFromBase64 s with
    | error e =>
      rw [RunE_decode_error env s rest trace e hd, RunE_decode_error env s rest [] e hd]
      simp [marshalCalls_append, marshalCalls, hd]
    | ok p =>
      cases hm : env.Marshal marshaler p with
      | error e =>
        rw [RunE_marshal_error env s rest trace p e hd hm,
          RunE_marshal_error env s rest [] p e hd hm]
        simp only [marshalCalls_append, marshalCalls, List.nil_append, List.mem_singleton, hd]
        refine ⟨rfl, ?_⟩
        rintro call rfl
        exact ⟨rfl, rfl, rfl⟩
      | ok b =>
        rw [RunE_ok env s rest trace p b hd hm, RunE_ok env s rest [] p b hd hm]
        simp only [marshalCalls_append, marshalCalls, List.nil_append, List.mem_singleton, hd]
        refine ⟨rfl, ?_⟩
        rintro call rfl
        exact ⟨rfl, rfl, rfl⟩

/-! ## The handler over the pipeline of the specification -/

/-- C7: for a record `r` that the schema's decoder gives back from the
encoder's bytes and that the renderer turns into the text `b` (two-space
indent, enumerations as numbers), the handler run on the base64 encoding of
the encoder's bytes decodes `r`, renders it and writes exactly `b`; it returns
what standard output reports for `b`, no error when the write succeeds. -/
theorem pipeline_round_trip {Rec : Type} (lib : SchemaLib Rec)
    (write : List Byte → Option PipelineError) (r : Rec) (b : List Byte)
    (rest : List String) (trace : List (Event Rec))
    (hr : RecordDecoder.decode lib (lib.recordToBytes r) = .ok r)
    (hm : StructuredRenderer.render lib { Indent := "  ", UseEnumNumbers := true } r = .ok b) :
    ExposedPortsFromBase64 lib (base64Encode (lib.recordToBytes r)) = .ok r ∧
      RunE (specEnv lib write) (base64Encode (lib.recordToBytes r) :: rest) trace
        = (.returned (write b),
            trace ++ [.decode (base64Encode (lib.recordToBytes r)),
              .marshal { Indent := "  ", UseEnumNumbers := true } r, .fprintStdout b]) ∧
      stdoutBytes
          (RunE (specEnv lib write) (base64Encode (lib.recordToBytes r) :: rest) trace).2
        = stdoutBytes trace ++ b ∧
      (write b = none →
        (RunE (specEnv lib write) (base64Encode (lib.recordToBytes r) :: rest) trace).1
          = .returned none) := by
  have hd : (specEnv lib write).ExposedPortsFromBase64 (base64Encode (lib.recordToBytes r))
      = .ok r := by
    show ExposedPortsFromBase64 lib _ = _
    unfold ExposedPortsFromBase64
    rw [TextDecoder_decode_encode]
    exact hr
  have hm2 : (specEnv lib write).Marshal marshaler r = .ok b := hm
  rw [RunE_ok (specEnv lib write) _ rest trace r b hd hm2]
  refine ⟨hd, rfl, ?_, ?_⟩
  · rw [stdoutBytes_append]
    simp [stdoutBytes, stdoutWrites]
  · intro hw
    show Outcome.returned (write b) = _
    rw [hw]

/-- C7, at a concrete input: the stand-in record with a public port, whose
encoding is `"CAE="`. -/
theorem pipeline_round_trip_witness :
    base64Encode (fakeLib.recordToBytes { visibility := .PUBLIC }) = "CAE=" ∧
      RecordDecoder.decode fakeLib (fakeLib.recordToBytes { visibility := .PUBLIC })
        = .ok { visibility := .PUBLIC } ∧
      ExposedPortsFromBase64 fakeLib (base64Encode (fakeLib.recordToBytes { visibility := .PUBLIC }))
        = .ok { visibility := .PUBLIC } ∧
      RunE fakeEnv [base64Encode (fakeLib.recordToBytes { visibility := .PUBLIC })] noCalls
        = (.returned none,
            noCalls ++ [.decode (base64Encode (fakeLib.recordToBytes { visibility := .PUBLIC })),
              .marshal { Indent := "  ", UseEnumNumbers := true } { visibility := .PUBLIC },
              .fprintStdout publicJson]) ∧
      stdoutBytes
          (RunE fakeEnv [base64Encode (fakeLib.recordToBytes { visibility := .PUBLIC })] noCalls).2
        = stdoutBytes noCalls ++ publicJson ∧
      ((fun _ => none : List Byte → Option PipelineError) publicJson = none →
        (RunE fakeEnv [base64Encode (fakeLib.recordToBytes { visibility := .PUBLIC })] noCalls).1
          = .returned none) :=
  ⟨by decide, rfl,
    pipeline_round_trip fakeLib (fun _ => none) { visibility := .PUBLIC } publicJson [] noCalls
      rfl rfl⟩

/-- C8: the empty string is the base64 encoding of zero bytes and decodes to
the zero-valued record without error; when the renderer turns that record into
the text `b` and standard output takes the write, the handler returns no error
and writes exactly `b`. -/
theorem RunE_empty_input {Rec : Type} (lib : SchemaLib Rec)
    (write : List Byte → Option PipelineError) (b : List Byte)
    (rest : List String) (trace : List (Event Rec))
    (hm : StructuredRenderer.render lib { Indent := "  ", UseEnumNumbers := true } lib.zero
      = .ok b)
    (hw : write b = none) :
    base64Encode [] = "" ∧
      TextDecoder.decode "" = .ok [] ∧
      ExposedPortsFromBase64 lib "" = .ok lib.zero ∧
      RunE (specEnv lib write) ("" :: rest) trace
        = (.returned none,
            trace ++ [.decode "", .marshal { Indent := "  ", UseEnumNumbers := true } lib.zero,
              .fprintStdout b]) ∧
      stdoutBytes (RunE (specEnv lib write) ("" :: rest) trace).2 = stdoutBytes trace ++ b := by
  have hd : (specEnv lib write).ExposedPortsFromBase64 "" = .ok lib.zero := rfl
  have hm2 : (specEnv lib write).Marshal marshaler lib.zero = .ok b := hm
  rw [RunE_ok (specEnv lib write) "" rest trace lib.zero b hd hm2]
  refine ⟨rfl, rfl, rfl, ?_, ?_⟩
  · show (Outcome.returned (write b), _) = _
    rw [hw]
    rfl
  · rw [stdoutBytes_append]
    simp [stdoutBytes, stdoutWrites]

/-- C8, at a concrete input: over the stand-in schema, which omits a
zero-valued field, the text written for the empty string is the two bytes of
an empty JSON object. -/
theorem RunE_empty_input_witness :
    StructuredRenderer.render fakeLib { Indent := "  ", UseEnumNumbers := true } fakeLib.zero
        = .ok [toByte 123, toByte 125] ∧
      (base64Encode [] = "" ∧
        TextDecoder.decode "" = .ok [] ∧
        ExposedPortsFromBase64 fakeLib "" = .ok fakeLib.zero ∧
        RunE fakeEnv [""] noCalls
          = (.returned none,
              noCalls ++ [.decode "",
                .marshal { Indent := "  ", UseEnumNumbers := true } fakeLib.zero,
                .fprintStdout [toByte 123, toByte 125]]) ∧
        stdoutBytes (RunE fakeEnv [""] noCalls).2
          = stdoutBytes noCalls ++ [toByte 123, toByte 125]) :=
  ⟨rfl, RunE_empty_input fakeLib (fun _ => none) [toByte 123, toByte 125] [] noCalls rfl rfl⟩

/-- C9: on an argument that is not a standard-alphabet, padded base64 text the
handler returns the text decoder's `MalformedText` error, with the length of
the argument; it does not panic, calls neither the marshal step nor standard
output, and this whatever the schema library: no part of the argument is
decoded or rendered. -/
theorem RunE_rejects_malformed_text {Rec : Type} (lib : SchemaLib Rec)
    (write : List Byte → Option PipelineError) (s : String)
    (rest : List String) (trace : List (Event Rec))
    (h : ¬ IsStdBase64 s) :
    (∃ diagnostic,
        RunE (specEnv lib write) (s :: rest) trace
          = (.returned (some (.MalformedText s.length diagnostic)), trace ++ [.decode s])) ∧
      (RunE (specEnv lib write) (s :: rest) trace).1 ≠ .panicked ∧
      stdoutBytes (RunE (specEnv lib write) (s :: rest) trace).2 = stdoutBytes trace ∧
      marshalCalls (RunE (specEnv lib write) (s :: rest) trace).2 = marshalCalls trace := by
  have hd : (specEnv lib write).ExposedPortsFromBase64 s
      = .error (.MalformedText s.length "illegal base64 data") := by
    show ExposedPortsFromBase64 lib s = _
    unfold ExposedPortsFromBase64
    rw [TextDecoder_decode_malformed s h]
  rw [RunE_decode_error (specEnv lib write) s rest trace _ hd]
  refine ⟨⟨_, rfl⟩, by simp, ?_, ?_⟩
  · rw [stdoutBytes_append]
    simp [stdoutBytes, stdoutWrites]
  · simp [marshalCalls_append, marshalCalls]

/-- C9, at the input of the specification: `"not-valid-base64!!"`, 18
characters long, is no base64 text and is rejected. -/
theorem RunE_rejects_malformed_text_witness :
    ¬ IsStdBase64 "not-valid-base64!!" ∧
      (∃ diagnostic,
        RunE fakeEnv ["not-valid-base64!!"] noCalls
          = (.returned (some (.MalformedText "not-valid-base64!!".length diagnostic)),
              noCalls ++ [.decode "not-valid-base64!!"])) ∧
      (RunE fakeEnv ["not-valid-base64!!"] noCalls).1 ≠ .panicked ∧
      stdoutBytes (RunE fakeEnv ["not-valid-base64!!"] noCalls).2 = stdoutBytes noCalls ∧
      marshalCalls (RunE fakeEnv ["not-valid-base64!!"] noCalls).2 = marshalCalls noCalls :=
  ⟨fun h => absurd h.1 (by decide),
    RunE_rejects_malformed_text fakeLib (fun _ => none) "not-valid-base64!!" [] noCalls
      (fun h => absurd h.1 (by decide))⟩

/-! ## The enumeration setting -/

/-- No run of the handler asks the marshal step for enumerations as names. -/
theorem RunE_never_asks_for_names {ε Rec : Type} (env : Env ε Rec) (args : List String)
    (call : MarshalOptions × Rec) (h : call ∈ marshalCalls (RunE env args []).2) :
    call.1.UseEnumNumbers = true := by
  cases args with
  | nil => simp [RunE, marshalCalls] at h
  | cons s rest =>
    cases hd : env.ExposedPortsFromBase64 s with
    | error e =>
      rw [RunE_decode_error env s rest [] e hd] at h
      simp [marshalCalls] at h
    | ok p =>
      cases hm : env.Marshal marshaler p with
      | error e =>
        rw [RunE_marshal_error env s rest [] p e hd hm] at h
        simp only [marshalCalls, List.nil_append, List.mem_singleton] at h
        rw [h]
        rfl
      | ok b =>
        rw [RunE_ok env s rest [] p b hd hm] at h
        simp only [marshalCalls, List.nil_append, List.mem_singleton] at h
        rw [h]
        rfl

/-- C10, refuted: over the stand-in schema the record with a public port
renders as its code under enumerations-as-numbers and as its name otherwise,
two different texts; the command writes the first on `"CAE="`, and on no
argument list does it ask the marshal step for names or write the second. -/
theorem symbolic_rendering_not_obtainable :
    fakeEnv.Marshal { Indent := "  ", UseEnumNumbers := true } { visibility := .PUBLIC }
        = .ok publicJson ∧
      fakeEnv.Marshal { Indent := "  ", UseEnumNumbers := false } { visibility := .PUBLIC }
        = .ok publicJsonSymbolic ∧
      publicJson ≠ publicJsonSymbolic ∧
      stdoutWrites ((debugPortSpec fakeEnv).execute ["CAE="] noCalls).2 = [publicJson] ∧
      (¬ ∃ args call, call ∈ marshalCalls ((debugPortSpec fakeEnv).execute args noCalls).2 ∧
        call.1.UseEnumNumbers = false) ∧
      ¬ ∃ args, publicJsonSymbolic ∈ stdoutWrites ((debugPortSpec fakeEnv).execute args noCalls).2 := by
  have hexec : ∀ args : List String,
      ((debugPortSpec fakeEnv).execute args noCalls).2 = noCalls ∨
        ((debugPortSpec fakeEnv).execute args noCalls).2 = (RunE fakeEnv args noCalls).2 := by
    intro args
    unfold Command.execute
    split
    · exact Or.inl rfl
    · exact Or.inr rfl
  refine ⟨rfl, rfl, by decide, rfl, ?_, ?_⟩
  · rintro ⟨args, call, hmem, hfalse⟩
    rcases hexec args with h | h
    · rw [h] at hmem
      simp [noCalls, marshalCalls] at hmem
    · rw [h] at hmem
      have := RunE_never_asks_for_names fakeEnv args call hmem
      rw [this] at hfalse
      cases hfalse
  · rintro ⟨args, hmem⟩
    rcases hexec args with h | h
    · rw [h] at hmem
      simp [noCalls, stdoutWrites] at hmem
    · rw [h] at hmem
      cases args with
      | nil => simp [RunE, noCalls, stdoutWrites] at hmem
      | cons s rest =>
        cases hd : fakeEnv.ExposedPortsFromBase64 s with
        | error e =>
          rw [RunE_decode_error fakeEnv s rest noCalls e hd] at hmem
          simp [noCalls, stdoutWrites] at hmem
        | ok p =>
          obtain ⟨v⟩ := p
          cases v with
          | PRIVATE =>
            rw [RunE_ok fakeEnv s rest noCalls _ emptyJson hd rfl] at hmem
            simp only [noCalls, stdoutWrites, List.nil_append, List.mem_singleton] at hmem
            revert hmem
            decide
          | PUBLIC =>
            rw [RunE_ok fakeEnv s rest noCalls _ publicJson hd rfl] at hmem
            simp only [noCalls, stdoutWrites, List.nil_append, List.mem_singleton] at hmem
            revert hmem
            decide

/-- C10, amended: the handler asks the marshal step for enumerations as
numbers only.  For a record that the decode step returns for `s`, that renders
as the text `c` under enumerations-as-numbers and as a different text `n`
under enumerations-as-names, the handler writes `c` and does not write `n`,
and none of its marshal calls asks for names. -/
theorem RunE_renders_enums_as_numbers_only {ε Rec : Type} (env : Env ε Rec) (s : String)
    (rest : List String) (p : Rec) (c n : List Byte)
    (hd : env.ExposedPortsFromBase64 s = .ok p)
    (hc : env.Marshal { Indent := "  ", UseEnumNumbers := true } p = .ok c)
    (_hn : env.Marshal { Indent := "  ", UseEnumNumbers := false } p = .ok n)
    (hne : c ≠ n) :
    stdoutWrites (RunE env (s :: rest) []).2 = [c] ∧
      n ∉ stdoutWrites (RunE env (s :: rest) []).2 ∧
      ∀ call ∈ marshalCalls (RunE env (s :: rest) []).2, call.1.UseEnumNumbers = true := by
  refine ⟨?_, ?_, fun call h => RunE_never_asks_for_names env (s :: rest) call h⟩
  · rw [RunE_ok env s rest [] p c hd hc]
    rfl
  · rw [RunE_ok env s rest [] p c hd hc]
    simp only [stdoutWrites, List.nil_append, List.mem_singleton]
    exact fun h => hne h.symm

/-- C10, amended, at a concrete input: the stand-in record with a public port,
decoded from `"CAE="`. -/
theorem RunE_renders_enums_as_numbers_only_witness :
    stdoutWrites (RunE fakeEnv ["CAE="] noCalls).2 = [publicJson] ∧
      publicJsonSymbolic ∉ stdoutWrites (RunE fakeEnv ["CAE="] noCalls).2 ∧
      ∀ call ∈ marshalCalls (RunE fakeEnv ["CAE="] noCalls).2, call.1.UseEnumNumbers = true :=
  RunE_renders_enums_as_numbers_only fakeEnv "CAE=" [] { visibility := .PUBLIC }
    publicJson publicJsonSymbolic rfl rfl rfl (by decide)

end DecodePortspec
